import Mathlib

/-!
Shallow embedding of the silkworm Proof-of-Work chain-sync driver
(`PoWSync`, file `sync_pow.cpp`, namespace `silkworm::chainsync`).

External collaborators — the execution engine, the block exchange and the
fork-choice view — are modelled as oracles: the per-call answers the driver
would receive are inputs to the embedded functions, and every call the
driver makes is recorded, in program order, in an event trace.  The driver
itself is translated function by function from the source:

* `resume`                    — `PoWSync::resume`
* `forward_and_insert_blocks` — `PoWSync::forward_and_insert_blocks`
  (the while-loop is driven by a schedule of loop-head observations:
  stop flag, `in_sync`, `current_height`, and the result of the 100 ms
  timed pop on the result queue)
* `verify_cycle`              — the verification part of
  `PoWSync::execution_loop` (lines handling `new_height.number == 0`,
  `ValidChain`, `InvalidChain`, `ValidationError`, unknown verdict, and the
  trailing `is_first_sync_ = is_starting_up; is_starting_up = false;`)
* `execIteration` / `execution_loop_from` / `execution_loop`
  — `PoWSync::execution_loop`
* `send_new_block_announcements`, `send_new_block_hash_announcements`,
  `update_bad_headers` — the homonymous members.

`ensure_invariant` failures (`std::logic_error`) are modelled as `fatal`
outcomes carrying the diagnostic message.
-/

namespace PoWSync

/-- Header and block hashes, abstracted to naturals. -/
abbrev Hash := Nat

/-- Block header.  The driver reads only `number` and hands the whole header
to the fork-choice view; the remaining fields are opaque payload. -/
structure BlockHeader where
  number : Nat
  hash : Hash
  parentHash : Hash
  difficulty : Nat
deriving DecidableEq

/-- Downloaded block as the driver sees it: a header plus the two
core-visible mutable fields, `td` (total difficulty, back-annotated by the
driver from the view's `add`) and `to_announce` (set by the exchange). -/
structure Block where
  header : BlockHeader
  td : Nat
  to_announce : Bool
deriving DecidableEq

/-- ChainHead: `(number, hash, total difficulty)` — the engine's persisted
canonical head, as returned by `last_fork_choice()`. -/
structure ChainHead where
  number : Nat
  hash : Hash
  td : Nat
deriving DecidableEq

/-- BlockId / `NewHeight` pair returned by `resume` and
`forward_and_insert_blocks` and consumed by the verify cycle. -/
structure NewHeight where
  number : Nat
  hash : Hash
deriving DecidableEq

/-- Helper `height(ChainHead)` from the source: the head's block number. -/
def height (h : ChainHead) : Nat := h.number

/-- Interface of the fork-choice view (`chain_fork_view_`).  The view's
implementation is outside the sources under scrutiny, so the driver is
parametrized by an arbitrary implementation `V` of this interface:
`reset_head`, `add` (returning the computed total difficulty), and the
`head_height` / `head_hash` accessors. -/
structure ForkViewOps (V : Type) where
  reset_head : V → ChainHead → V
  add : V → BlockHeader → V × Nat
  head_height : V → Nat
  head_hash : V → Hash

/-- Trace events: one constructor per outward call the driver makes, in the
order the source makes them. -/
inductive Event where
  | getLastHeaders (n : Nat)
  | initialStateEv
  | downloadBlocks (fromBlock : Nat)
  | insertBlocks (blocks : List Block)
  | outboundNewBlock (blocks : List Block) (is_first_sync : Bool)
  | stopDownloading
  | validateChain (h : Hash)
  | updateForkChoice (h : Hash)
  | outboundNewBlockHashes (is_first_sync : Bool)
  | getBlockNum (h : Hash)
  | unwindEv (unwind_point : Nat) (h : Hash) (bad_block : Option Hash)
  | updateBadHeaders (bad_headers : List Hash)
deriving DecidableEq

/-- Verdict of `validate_chain`, the tagged sum from the execution engine.
`UnknownVerdict` models a variant holding none of the three alternatives
(the final `else` branch of the source). -/
inductive VerifyResult where
  | ValidChain (current_head : Hash)
  | InvalidChain (latest_valid_head : Hash) (bad_block : Option Hash) (bad_headers : List Hash)
  | ValidationError (latest_valid_head : Hash) (missing_block : Hash)
  | UnknownVerdict
deriving DecidableEq

/-- Engine answers consumed by one call of `PoWSync::resume`:
`last_fork_choice()`, `block_progress()` and `get_last_headers(128)`. -/
structure ResumeInputs where
  head : ChainHead
  block_progress : Nat
  prev_headers : List BlockHeader
deriving DecidableEq

/-- One loop-head observation of the forward loop: the stop flag, the
exchange's `in_sync()` and `current_height()` answers, and the outcome of
the 100 ms `timed_wait_and_pop` (`none` = timeout). -/
structure LoopObs where
  stopping : Bool
  in_sync : Bool
  current_height : Nat
  popped : Option (List Block)
deriving DecidableEq

variable {V : Type}

/-- PoWSync::send_new_block_announcements — returns without submitting
anything for an empty block list, otherwise accepts an
`OutboundNewBlock(blocks, is_first_sync_)` message. -/
def send_new_block_announcements (is_first_sync : Bool) (blocks : List Block) : List Event :=
  if blocks.isEmpty then [] else [Event.outboundNewBlock blocks is_first_sync]

/-- PoWSync::send_new_block_hash_announcements — accepts an
`OutboundNewBlockHashes(is_first_sync_)` message. -/
def send_new_block_hash_announcements (is_first_sync : Bool) : List Event :=
  [Event.outboundNewBlockHashes is_first_sync]

/-- PoWSync::update_bad_headers — submits the bad-header set to the
exchange. -/
def update_bad_headers (bads : List Hash) : List Event :=
  [Event.updateBadHeaders bads]

/-- PoWSync::resume.  Resets the view to the engine's head, checks the
`height(head) <= block_progress` invariant (violation throws), returns the
head unchanged when progress matches its height, and otherwise folds the
last 128 headers into the view and returns the view's resulting head.
Result: the view state after the call, the events emitted, and either the
`NewHeight` or the invariant-violation diagnostic. -/
def resume (ops : ForkViewOps V) (v : V) (inp : ResumeInputs) :
    V × List Event × Except String NewHeight :=
  let v1 := ops.reset_head v inp.head
  if height inp.head ≤ inp.block_progress then
    if inp.block_progress = height inp.head then
      (v1, [], Except.ok { number := inp.head.number, hash := inp.head.hash })
    else
      let v2 := inp.prev_headers.foldl (fun w h => (ops.add w h).1) v1
      (v2, [Event.getLastHeaders 128],
       Except.ok { number := ops.head_height v2, hash := ops.head_hash v2 })
  else
    (v1, [], Except.error "canonical head beyond block progress")

/-- Reference recursion following the spec sentence "for each block in the
batch: set `block.total_difficulty = view.add(block.header)`": feeds the
headers to the view one by one, returning the final view and the list of
total difficulties `add` returned, in order. -/
def addAll (ops : ForkViewOps V) : V → List BlockHeader → V × List Nat
  | v, [] => (v, [])
  | v, h :: hs =>
    let p := ops.add v h
    let r := addAll ops p.1 hs
    (r.1, p.2 :: r.2)

/-- Batch blocks after the per-block pass: each block with its `td` field
back-annotated with the value `add` returned for its header. -/
def annotate (ops : ForkViewOps V) : V → List Block → List Block
  | _, [] => []
  | v, b :: bs =>
    let p := ops.add v b.header
    { b with td := p.2 } :: annotate ops p.1 bs

/-- Body of the `as_range::for_each` over a batch: accumulator is
`(view, block_progress, processed blocks, announcements_to_do)`. -/
def stepBlock (ops : ForkViewOps V) (acc : V × Nat × List Block × List Block) (b : Block) :
    V × Nat × List Block × List Block :=
  let p := ops.add acc.1 b.header
  let b' : Block := { b with td := p.2 }
  (p.1, Nat.max acc.2.1 b.header.number, acc.2.2.1 ++ [b'],
   if b.to_announce then acc.2.2.2 ++ [b'] else acc.2.2.2)

/-- One popped batch, processed as in the forward-loop body: per-block pass,
then `insert_blocks` on the whole (td-annotated) batch, then
`send_new_block_announcements` on the collected subset.  Returns the new
view, the new `block_progress`, the processed batch and the events. -/
def processBatch (ops : ForkViewOps V) (is_first_sync : Bool) (v : V) (prog : Nat)
    (blocks : List Block) : V × Nat × List Block × List Event :=
  let r := blocks.foldl (stepBlock ops) (v, prog, [], [])
  (r.1, r.2.1, r.2.2.1,
   Event.insertBlocks r.2.2.1 :: send_new_block_announcements is_first_sync r.2.2.2)

/-- The forward while-loop, driven by the schedule of loop-head
observations.  Exits (returning the current view, progress and accumulated
events) when the loop condition `!is_stopping() && !(in_sync &&
block_progress == current_height)` fails; `none` when the schedule is
exhausted before the loop exits. -/
def forwardLoop (ops : ForkViewOps V) (is_first_sync : Bool) :
    List LoopObs → V → Nat → List Event → Option (V × Nat × List Event)
  | [], _, _, _ => none
  | o :: rest, v, prog, evs =>
    if o.stopping ∨ (o.in_sync ∧ prog = o.current_height) then
      some (v, prog, evs)
    else
      match o.popped with
      | none => forwardLoop ops is_first_sync rest v prog evs
      | some blocks =>
        let r := processBatch ops is_first_sync v prog blocks
        forwardLoop ops is_first_sync rest r.1 r.2.1 (evs ++ r.2.2.2)

/-- PoWSync::forward_and_insert_blocks.  Reads the initial block progress,
starts downloading, runs the loop, then requests `stop_downloading` and
returns `NewHeight { view.head_height(), view.head_hash() }`. -/
def forward_and_insert_blocks (ops : ForkViewOps V) (is_first_sync : Bool) (v : V)
    (initial_block_progress : Nat) (sched : List LoopObs) :
    Option (V × Nat × NewHeight × List Event) :=
  match forwardLoop ops is_first_sync sched v initial_block_progress
      [Event.downloadBlocks initial_block_progress] with
  | none => none
  | some (v', prog, evs) =>
    some (v', prog, { number := ops.head_height v', hash := ops.head_hash v' },
          evs ++ [Event.stopDownloading])

/-- Driver state across iterations of `execution_loop`: the local
`is_starting_up`, the member `is_first_sync_` and the fork-choice view. -/
structure LoopState (V : Type) where
  is_starting_up : Bool
  is_first_sync : Bool
  view : V
deriving DecidableEq

/-- Outcome of one iteration of the driver loop: normal completion, a
`std::logic_error` (fatal diagnostic), or `stuck` (the forward schedule was
exhausted before its loop exited — the modelled run gives no verdict). -/
inductive CycleOut (V : Type) where
  | ok (st : LoopState V) (events : List Event)
  | fatal (msg : String) (events : List Event)
  | stuck (events : List Event)
deriving DecidableEq

/-- Events of a cycle outcome. -/
def CycleOut.events : CycleOut V → List Event
  | .ok _ es => es
  | .fatal _ es => es
  | .stuck es => es

/-- Prefix earlier events onto a cycle outcome. -/
def CycleOut.prepend (evs : List Event) : CycleOut V → CycleOut V
  | .ok st es => .ok st (evs ++ es)
  | .fatal m es => .fatal m (evs ++ es)
  | .stuck es => .stuck (evs ++ es)

/-- The verification part of one `execution_loop` iteration, from the
`new_height.number == 0` check to the trailing
`is_first_sync_ = is_starting_up; is_starting_up = false;`.  Dispatches on
the `validate_chain` verdict exactly as the source does. -/
def verify_cycle (st : LoopState V) (nh : NewHeight) (verdict : VerifyResult)
    (block_num : Option Nat) : CycleOut V :=
  if nh.number = 0 then
    CycleOut.ok { st with is_starting_up := false } []
  else
    match verdict with
    | .ValidChain current_head =>
      if current_head = nh.hash then
        CycleOut.ok { st with is_starting_up := false, is_first_sync := st.is_starting_up }
          ([Event.validateChain nh.hash, Event.updateForkChoice nh.hash] ++
            send_new_block_hash_announcements st.is_first_sync)
      else
        CycleOut.fatal "Invalid verify_chain result" [Event.validateChain nh.hash]
    | .InvalidChain latest_valid_head bad_block bad_headers =>
      match block_num with
      | none =>
        CycleOut.fatal "Invalid latest_valid_head"
          [Event.validateChain nh.hash, Event.getBlockNum latest_valid_head]
      | some n =>
        CycleOut.ok { st with is_starting_up := false, is_first_sync := st.is_starting_up }
          ([Event.validateChain nh.hash, Event.getBlockNum latest_valid_head,
            Event.unwindEv n latest_valid_head bad_block] ++
           (if bad_headers.isEmpty then [] else update_bad_headers bad_headers) ++
           [Event.updateForkChoice latest_valid_head])
    | .ValidationError _ _ =>
      CycleOut.fatal "Consensus, validation error" [Event.validateChain nh.hash]
    | .UnknownVerdict =>
      CycleOut.fatal "Consensus, unknown error" [Event.validateChain nh.hash]

/-- Oracle answers consumed by one iteration of the driver loop. -/
structure CycleInputs where
  stopping : Bool
  resumeInp : ResumeInputs
  fwdProgress : Nat
  fwdSched : List LoopObs
  verdict : VerifyResult
  blockNumAnswer : Option Nat
deriving DecidableEq

/-- Source of the iteration's `NewHeight`: `resume()` while starting up,
`forward_and_insert_blocks()` afterwards. -/
def sourcePhase (ops : ForkViewOps V) (st : LoopState V) (inp : CycleInputs) :
    Option (V × List Event × Except String NewHeight) :=
  if st.is_starting_up then
    some (resume ops st.view inp.resumeInp)
  else
    match forward_and_insert_blocks ops st.is_first_sync st.view inp.fwdProgress inp.fwdSched with
    | none => none
    | some (v', _, nh, evs) => some (v', evs, Except.ok nh)

/-- One full iteration of the driver loop body (after the loop-head stop
check): source phase followed by the verify cycle. -/
def execIteration (ops : ForkViewOps V) (st : LoopState V) (inp : CycleInputs) : CycleOut V :=
  match sourcePhase ops st inp with
  | none => CycleOut.stuck []
  | some (_, evs, .error msg) => CycleOut.fatal msg evs
  | some (v', evs, .ok nh) =>
    CycleOut.prepend evs (verify_cycle { st with view := v' } nh inp.verdict inp.blockNumAnswer)

/-- Outcome of a (fuel-bounded) run of the driver loop: `ran` when every
supplied iteration input was consumed or the stop flag was observed at a
loop head, otherwise a fatal diagnostic or a stuck forward phase. -/
inductive RunOut (V : Type) where
  | ran (st : LoopState V) (events : List Event)
  | fatal (msg : String) (events : List Event)
  | stuck (events : List Event)
deriving DecidableEq

/-- Prefix earlier events onto a run outcome. -/
def RunOut.prepend (evs : List Event) : RunOut V → RunOut V
  | .ran st es => .ran st (evs ++ es)
  | .fatal m es => .fatal m (evs ++ es)
  | .stuck es => .stuck (evs ++ es)

/-- The driver while-loop: checks the stop flag at each loop head, then runs
one iteration. -/
def execution_loop_from (ops : ForkViewOps V) : List CycleInputs → LoopState V → RunOut V
  | [], st => RunOut.ran st []
  | inp :: rest, st =>
    if inp.stopping then
      RunOut.ran st []
    else
      match execIteration ops st inp with
      | .ok st' evs => RunOut.prepend evs (execution_loop_from ops rest st')
      | .fatal m evs => RunOut.fatal m evs
      | .stuck evs => RunOut.stuck evs

/-- Modelled from the spec: the initial value of the `is_first_sync_` member.
The member is declared in `sync_pow.hpp`, which is not among the provided
sources; the spec states the flag "is true until the first complete verify
cycle finishes", so it starts out true. -/
def initial_is_first_sync : Bool := true

/-- PoWSync::execution_loop: fetch the last 65536 headers, hand them to the
exchange as bootstrap context, then run the driver loop starting up. -/
def execution_loop (ops : ForkViewOps V) (inputs : List CycleInputs) (v : V) : RunOut V :=
  RunOut.prepend [Event.getLastHeaders 65536, Event.initialStateEv]
    (execution_loop_from ops inputs
      { is_starting_up := true, is_first_sync := initial_is_first_sync, view := v })

/-- Modelled from the spec: a minimal instantiation of the fork-choice view
interface (the view's implementation, `ChainForkView`, is not among the
provided sources).  It keeps only the current head and installs every added
header as the new head, accumulating total difficulty; it is used to run the
driver on concrete inputs. -/
structure SimpleView where
  number : Nat
  hash : Hash
  td : Nat
deriving DecidableEq

/-- Operations of `SimpleView`. -/
def simpleOps : ForkViewOps SimpleView where
  reset_head := fun _ h => { number := h.number, hash := h.hash, td := h.td }
  add := fun v h =>
    ({ number := h.number, hash := h.hash, td := v.td + h.difficulty }, v.td + h.difficulty)
  head_height := fun v => v.number
  head_hash := fun v => v.hash

/-- Events of a run outcome. -/
def RunOut.events : RunOut V → List Event
  | .ran _ es => es
  | .fatal _ es => es
  | .stuck es => es

/-- Shape of the events a forward pass can emit: download/insert/stop plus
`OutboundNewBlock` messages that all carry the pass's `is_first_sync`
value. -/
def FwdEvent (fs : Bool) : Event → Prop
  | .downloadBlocks _ => True
  | .insertBlocks _ => True
  | .outboundNewBlock _ b => b = fs
  | .stopDownloading => True
  | _ => False

/-! ### Concrete values for runs, counterexamples and witnesses -/

/-- Empty starting view for concrete runs. -/
def exView0 : SimpleView := { number := 0, hash := 0, td := 0 }

/-- Concrete canonical head at height 5. -/
def exHead : ChainHead := { number := 5, hash := 100, td := 1 }

/-- Resume answers for a clean resume: progress equals the head's height. -/
def exResumeInp : ResumeInputs :=
  { head := exHead, block_progress := 5, prev_headers := [] }

/-- NewHeight matching `exHead`. -/
def exNH : NewHeight := { number := 5, hash := 100 }

/-- Loop-head observation with the exchange already in sync at height 5. -/
def exObs : LoopObs :=
  { stopping := false, in_sync := true, current_height := 5, popped := none }

/-- Loop-head observation with the stop flag raised. -/
def exStObs : LoopObs :=
  { stopping := true, in_sync := false, current_height := 0, popped := none }

/-- Iteration inputs for the starting-up cycle: clean resume, then a
`ValidChain` verdict on hash 100. -/
def exInp1 : CycleInputs :=
  { stopping := false, resumeInp := exResumeInp, fwdProgress := 0, fwdSched := [],
    verdict := VerifyResult.ValidChain 100, blockNumAnswer := none }

/-- Iteration inputs for a forward cycle that is immediately in sync,
followed by a `ValidChain` verdict on hash 100. -/
def exInp2 : CycleInputs :=
  { stopping := false, resumeInp := exResumeInp, fwdProgress := 5, fwdSched := [exObs],
    verdict := VerifyResult.ValidChain 100, blockNumAnswer := none }

/-- Iteration inputs whose forward schedule has the stop flag raised at the
first loop-head check. -/
def exInpStop : CycleInputs :=
  { stopping := false, resumeInp := exResumeInp, fwdProgress := 5, fwdSched := [exStObs],
    verdict := VerifyResult.ValidChain 100, blockNumAnswer := none }

/-- Driver state after a completed starting-up cycle resumed at `exHead`. -/
def exSt2 : LoopState SimpleView :=
  { is_starting_up := false, is_first_sync := true,
    view := { number := 5, hash := 100, td := 1 } }

/-- Canonical head at height 0 (empty database). -/
def exHead0 : ChainHead := { number := 0, hash := 7, td := 0 }

/-- Resume answers for the empty-database bootstrap. -/
def exResumeInp0 : ResumeInputs :=
  { head := exHead0, block_progress := 0, prev_headers := [] }

/-- Initial driver state over `SimpleView`. -/
def exSt0 : LoopState SimpleView :=
  { is_starting_up := true, is_first_sync := true, view := exView0 }

/-- Iteration inputs for the empty-database bootstrap cycle. -/
def exInp0 : CycleInputs :=
  { stopping := false, resumeInp := exResumeInp0, fwdProgress := 0, fwdSched := [],
    verdict := VerifyResult.UnknownVerdict, blockNumAnswer := none }

/-- Concrete block header at height 6 on top of `exHead`. -/
def exHeader : BlockHeader :=
  { number := 6, hash := 106, parentHash := 100, difficulty := 2 }

/-- Concrete block that is not flagged for announcement. -/
def exBlockQuiet : Block := { header := exHeader, td := 0, to_announce := false }

/-! ### Helper lemmas -/

theorem addAll_fst (ops : ForkViewOps V) (hs : List BlockHeader) :
    ∀ v : V, (addAll ops v hs).1 = hs.foldl (fun w h => (ops.add w h).1) v := by
  induction hs with
  | nil => intro v; simp [addAll]
  | cons h hs ih => intro v; simp [addAll, ih]

theorem annotate_td (ops : ForkViewOps V) (bs : List Block) :
    ∀ v : V, (annotate ops v bs).map Block.td = (addAll ops v (bs.map Block.header)).2 := by
  induction bs with
  | nil => intro v; simp [annotate, addAll]
  | cons b bs ih => intro v; simp [annotate, addAll, ih]

theorem annotate_view (ops : ForkViewOps V) (bs : List Block) :
    ∀ v : V, (addAll ops v (bs.map Block.header)).1 =
      bs.foldl (fun w b => (ops.add w b.header).1) v := by
  induction bs with
  | nil => intro v; simp [addAll]
  | cons b bs ih => intro v; simp [addAll, ih]

theorem annotate_shape (ops : ForkViewOps V) (bs : List Block) :
    ∀ v : V, (annotate ops v bs).map (fun b => (b.header, b.to_announce)) =
      bs.map (fun b => (b.header, b.to_announce)) := by
  induction bs with
  | nil => intro v; simp [annotate]
  | cons b bs ih => intro v; simp [annotate, ih]

theorem foldl_stepBlock (ops : ForkViewOps V) (bs : List Block) :
    ∀ (v : V) (p : Nat) (done ann : List Block),
      bs.foldl (stepBlock ops) (v, p, done, ann) =
        ((addAll ops v (bs.map Block.header)).1,
         bs.foldl (fun m b => Nat.max m b.header.number) p,
         done ++ annotate ops v bs,
         ann ++ (annotate ops v bs).filter (fun b => b.to_announce)) := by
  induction bs with
  | nil =>
    intro v p done ann
    simp [addAll, annotate]
  | cons b bs ih =>
    intro v p done ann
    have hstep : stepBlock ops (v, p, done, ann) b =
        ((ops.add v b.header).1, Nat.max p b.header.number,
         done ++ [{ b with td := (ops.add v b.header).2 }],
         if b.to_announce then ann ++ [{ b with td := (ops.add v b.header).2 }] else ann) := rfl
    rw [List.foldl_cons, hstep, ih]
    cases hb : b.to_announce <;>
      simp [addAll, annotate, hb, List.filter_cons]

theorem processBatch_eq (ops : ForkViewOps V) (fs : Bool) (v : V) (p : Nat) (bs : List Block) :
    processBatch ops fs v p bs =
      ((addAll ops v (bs.map Block.header)).1,
       bs.foldl (fun m b => Nat.max m b.header.number) p,
       annotate ops v bs,
       Event.insertBlocks (annotate ops v bs) ::
         send_new_block_announcements fs
           ((annotate ops v bs).filter (fun b => b.to_announce))) := by
  simp [processBatch, foldl_stepBlock]

theorem le_foldl_max (bs : List Block) :
    ∀ p : Nat, p ≤ bs.foldl (fun m b => Nat.max m b.header.number) p := by
  induction bs with
  | nil => intro p; exact Nat.le_refl p
  | cons b bs ih =>
    intro p
    exact Nat.le_trans (Nat.le_max_left p b.header.number) (ih _)

theorem processBatch_events_fwd (ops : ForkViewOps V) (fs : Bool) (v : V) (p : Nat)
    (bs : List Block) : ∀ e ∈ (processBatch ops fs v p bs).2.2.2, FwdEvent fs e := by
  intro e he
  rw [processBatch_eq] at he
  simp only [List.mem_cons] at he
  rcases he with he | he
  · subst he; trivial
  · unfold send_new_block_announcements at he
    split at he
    · simp at he
    · simp only [List.mem_singleton] at he
      subst he; rfl

theorem forwardLoop_events (ops : ForkViewOps V) (fs : Bool) :
    ∀ (sched : List LoopObs) (v : V) (p : Nat) (evs : List Event) (r : V × Nat × List Event),
      forwardLoop ops fs sched v p evs = some r →
      (∀ e ∈ evs, FwdEvent fs e) → ∀ e ∈ r.2.2, FwdEvent fs e := by
  intro sched
  induction sched with
  | nil => intro v p evs r h; simp [forwardLoop] at h
  | cons o rest ih =>
    intro v p evs r h hevs
    unfold forwardLoop at h
    split at h
    · cases h; exact hevs
    · cases hp : o.popped with
      | none => rw [hp] at h; exact ih v p evs r h hevs
      | some blocks =>
        rw [hp] at h
        refine ih _ _ _ r h ?_
        intro e he
        rcases List.mem_append.mp he with he | he
        · exact hevs e he
        · exact processBatch_events_fwd ops fs v p blocks e he

theorem forwardLoop_progress (ops : ForkViewOps V) (fs : Bool) :
    ∀ (sched : List LoopObs) (v : V) (p : Nat) (evs : List Event) (r : V × Nat × List Event),
      forwardLoop ops fs sched v p evs = some r → p ≤ r.2.1 := by
  intro sched
  induction sched with
  | nil => intro v p evs r h; simp [forwardLoop] at h
  | cons o rest ih =>
    intro v p evs r h
    unfold forwardLoop at h
    split at h
    · cases h; exact Nat.le_refl p
    · cases hp : o.popped with
      | none => rw [hp] at h; exact ih v p evs r h
      | some blocks =>
        rw [hp] at h
        refine Nat.le_trans ?_ (ih _ _ _ r h)
        rw [processBatch_eq]
        exact le_foldl_max blocks p

theorem forward_events_fwd (ops : ForkViewOps V) (fs : Bool) (v : V) (p : Nat)
    (sched : List LoopObs) (r : V × Nat × NewHeight × List Event)
    (h : forward_and_insert_blocks ops fs v p sched = some r) :
    ∀ e ∈ r.2.2.2, FwdEvent fs e := by
  unfold forward_and_insert_blocks at h
  cases hl : forwardLoop ops fs sched v p [Event.downloadBlocks p] with
  | none => rw [hl] at h; cases h
  | some q =>
    rw [hl] at h
    obtain ⟨v', prog, evs⟩ := q
    cases h
    intro e he
    simp only [List.mem_append, List.mem_singleton] at he
    rcases he with he | he
    · refine forwardLoop_events ops fs sched v p _ _ hl ?_ e he
      intro e' he'
      simp only [List.mem_singleton] at he'
      subst he'; trivial
    · subst he; trivial

theorem resume_events (ops : ForkViewOps V) (v : V) (inp : ResumeInputs) :
    ∀ e ∈ (resume ops v inp).2.1, e = Event.getLastHeaders 128 := by
  intro e he
  unfold resume at he
  split at he
  · split at he
    · simp at he
    · simpa using he
  · simp at he

theorem sourcePhase_events (ops : ForkViewOps V) (st : LoopState V) (inp : CycleInputs)
    (v' : V) (evs : List Event) (r : Except String NewHeight)
    (h : sourcePhase ops st inp = some (v', evs, r)) :
    ∀ e ∈ evs, e = Event.getLastHeaders 128 ∨ FwdEvent st.is_first_sync e := by
  unfold sourcePhase at h
  split at h
  · intro e he
    have h' : resume ops st.view inp.resumeInp = (v', evs, r) := Option.some.inj h
    have hevs : evs = (resume ops st.view inp.resumeInp).2.1 := by rw [h']
    rw [hevs] at he
    exact Or.inl (resume_events ops st.view inp.resumeInp e he)
  · cases hf : forward_and_insert_blocks ops st.is_first_sync st.view inp.fwdProgress
        inp.fwdSched with
    | none => rw [hf] at h; cases h
    | some q =>
      rw [hf] at h
      obtain ⟨w, prog, nh, es⟩ := q
      cases h
      intro e he
      exact Or.inr (forward_events_fwd ops st.is_first_sync st.view inp.fwdProgress
        inp.fwdSched _ hf e he)

theorem CycleOut.events_prepend (evs : List Event) (c : CycleOut V) :
    (CycleOut.prepend evs c).events = evs ++ c.events := by
  cases c <;> rfl

theorem verify_cycle_validate_mem (st : LoopState V) (nh : NewHeight)
    (verdict : VerifyResult) (bn : Option Nat) (hnz : nh.number ≠ 0) :
    Event.validateChain nh.hash ∈ (verify_cycle st nh verdict bn).events := by
  unfold verify_cycle
  rw [if_neg hnz]
  cases verdict with
  | ValidChain ch =>
    by_cases hch : ch = nh.hash <;> simp [hch, CycleOut.events]
  | InvalidChain lvh bad bads =>
    cases bn <;> simp [CycleOut.events]
  | ValidationError lvh mb => simp [CycleOut.events]
  | UnknownVerdict => simp [CycleOut.events]

theorem annotate_announce_false (ops : ForkViewOps V) (bs : List Block) :
    ∀ v : V, (∀ b ∈ bs, b.to_announce = false) →
      ∀ a ∈ annotate ops v bs, a.to_announce = false := by
  induction bs with
  | nil => intro v _ a ha; simp [annotate] at ha
  | cons b bs ih =>
    intro v hnone a ha
    simp only [annotate, List.mem_cons] at ha
    rcases ha with ha | ha
    · subst ha
      exact hnone b (List.mem_cons_self b bs)
    · exact ih _ (fun x hx => hnone x (List.mem_cons_of_mem _ hx)) a ha

theorem verify_cycle_flags (st : LoopState V) (nh : NewHeight) (verdict : VerifyResult)
    (bn : Option Nat) (st' : LoopState V) (es : List Event)
    (h : verify_cycle st nh verdict bn = CycleOut.ok st' es) :
    (∀ b, Event.outboundNewBlockHashes b ∈ es → b = st.is_first_sync) ∧
    (∀ bs b, Event.outboundNewBlock bs b ∈ es → b = st.is_first_sync) ∧
    ((∃ x, Event.validateChain x ∈ es) → st'.is_first_sync = st.is_starting_up) := by
  unfold verify_cycle at h
  split at h
  · obtain ⟨hst, hes⟩ := CycleOut.ok.inj h
    subst hes
    exact ⟨by simp, by simp, by rintro ⟨x, hx⟩; simp at hx⟩
  · split at h
    · split at h
      · obtain ⟨hst, hes⟩ := CycleOut.ok.inj h
        subst hes hst
        refine ⟨?_, ?_, fun _ => rfl⟩
        · intro b hb
          simp [send_new_block_hash_announcements] at hb
          exact hb
        · intro bs b hb
          simp [send_new_block_hash_announcements] at hb
      · cases h
    · rename_i lvh bad bads
      split at h
      · cases h
      · rename_i n
        obtain ⟨hst, hes⟩ := CycleOut.ok.inj h
        subst hes hst
        refine ⟨?_, ?_, fun _ => rfl⟩
        · intro b hb
          by_cases hbe : bads.isEmpty <;> simp [update_bad_headers, hbe] at hb
        · intro bs b hb
          by_cases hbe : bads.isEmpty <;> simp [update_bad_headers, hbe] at hb
    · cases h
    · cases h

/-! ### Claim theorems -/

/-- C1 (amended): every announcement emitted during a completed iteration
of the driver loop carries the `is_first_sync_` value held when that
iteration began, and an iteration that completes a verify cycle (i.e. one
that calls `validate_chain`) leaves `is_first_sync_` equal to the
`is_starting_up` value the iteration began with.  Consequently the flag
carried by announcements becomes false only starting with the cycle after
the first completed verify cycle whose height came from a forward pass: in
the normal resume path the announcements of the second completed verify
cycle still carry `true`. -/
theorem C1_amended_first_sync_flag (ops : ForkViewOps V) (st st' : LoopState V)
    (inp : CycleInputs) (evs : List Event)
    (hok : execIteration ops st inp = CycleOut.ok st' evs) :
    (∀ b, Event.outboundNewBlockHashes b ∈ evs → b = st.is_first_sync) ∧
    (∀ bs b, Event.outboundNewBlock bs b ∈ evs → b = st.is_first_sync) ∧
    ((∃ x, Event.validateChain x ∈ evs) → st'.is_first_sync = st.is_starting_up) := by
  unfold execIteration at hok
  cases hsp : sourcePhase ops st inp with
  | none => rw [hsp] at hok; cases hok
  | some q =>
    rw [hsp] at hok
    obtain ⟨v0, evs0, r⟩ := q
    cases r with
    | error msg => simp at hok
    | ok nh =>
      replace hok :
          CycleOut.prepend evs0
            (verify_cycle { st with view := v0 } nh inp.verdict inp.blockNumAnswer) =
            CycleOut.ok st' evs := hok
      cases hvc : verify_cycle { st with view := v0 } nh inp.verdict inp.blockNumAnswer with
      | fatal m es1 => rw [hvc] at hok; simp [CycleOut.prepend] at hok
      | stuck es1 => rw [hvc] at hok; simp [CycleOut.prepend] at hok
      | ok st1 es1 =>
        rw [hvc] at hok
        simp only [CycleOut.prepend, CycleOut.ok.injEq] at hok
        obtain ⟨hst, hevs⟩ := hok
        subst hst hevs
        have hflags := verify_cycle_flags _ _ _ _ _ _ hvc
        have hsrcEv := sourcePhase_events ops st inp v0 evs0 _ hsp
        refine ⟨?_, ?_, ?_⟩
        · intro b hb
          rcases List.mem_append.mp hb with hb | hb
          · rcases hsrcEv _ hb with he | he
            · simp at he
            · exact he.elim
          · exact hflags.1 b hb
        · intro bs b hb
          rcases List.mem_append.mp hb with hb | hb
          · rcases hsrcEv _ hb with he | he
            · simp at he
            · exact he
          · exact hflags.2.1 bs b hb
        · rintro ⟨x, hx⟩
          rcases List.mem_append.mp hx with hx | hx
          · rcases hsrcEv _ hx with he | he
            · simp at he
            · exact he.elim
          · exact hflags.2.2 ⟨x, hx⟩

/-- C2 (amended): when the stop flag is observed at a forward loop head,
the forward loop exits at that check without processing further batches and
`stop_downloading` is requested; the driver then still calls
`validate_chain` on the head the pass returned — the iteration's verify
cycle is not skipped — unless that head's number is 0. -/
theorem C2_amended_stop_still_verifies (ops : ForkViewOps V) (st : LoopState V)
    (inp : CycleInputs) (o : LoopObs) (rest : List LoopObs)
    (hns : st.is_starting_up = false)
    (hsched : inp.fwdSched = o :: rest)
    (hstop : o.stopping = true) :
    forward_and_insert_blocks ops st.is_first_sync st.view inp.fwdProgress inp.fwdSched =
      some (st.view, inp.fwdProgress,
            { number := ops.head_height st.view, hash := ops.head_hash st.view },
            [Event.downloadBlocks inp.fwdProgress, Event.stopDownloading]) ∧
    (ops.head_height st.view ≠ 0 →
      Event.validateChain (ops.head_hash st.view) ∈ (execIteration ops st inp).events) := by
  have hfwd : forward_and_insert_blocks ops st.is_first_sync st.view inp.fwdProgress
      inp.fwdSched =
      some (st.view, inp.fwdProgress,
            { number := ops.head_height st.view, hash := ops.head_hash st.view },
            [Event.downloadBlocks inp.fwdProgress, Event.stopDownloading]) := by
    rw [hsched]
    simp [forward_and_insert_blocks, forwardLoop, hstop]
  refine ⟨hfwd, fun hnz => ?_⟩
  have hsp : sourcePhase ops st inp =
      some (st.view, [Event.downloadBlocks inp.fwdProgress, Event.stopDownloading],
            Except.ok { number := ops.head_height st.view, hash := ops.head_hash st.view }) := by
    unfold sourcePhase
    rw [hns]
    simp [hfwd]
  have hiter : execIteration ops st inp =
      CycleOut.prepend [Event.downloadBlocks inp.fwdProgress, Event.stopDownloading]
        (verify_cycle { st with view := st.view }
          { number := ops.head_height st.view, hash := ops.head_hash st.view }
          inp.verdict inp.blockNumAnswer) := by
    unfold execIteration
    rw [hsp]
  rw [hiter, CycleOut.events_prepend]
  exact List.mem_append.mpr (Or.inr (verify_cycle_validate_mem _ _ _ _ hnz))

/-- C3: in a verify cycle with a `ValidChain` verdict on a nonzero height,
the driver raises the fatal invariant-violation error exactly when the
verdict's `current_head` differs from the hash just passed to
`validate_chain`; otherwise it calls `update_fork_choice` with that hash
and emits the `OutboundNewBlockHashes` announcement strictly after the
fork-choice update. -/
theorem C3_valid_chain (st : LoopState V) (nh : NewHeight) (current_head : Hash)
    (bn : Option Nat) (hnz : nh.number ≠ 0) :
    ((∃ msg evs, verify_cycle st nh (VerifyResult.ValidChain current_head) bn =
        CycleOut.fatal msg evs) ↔ current_head ≠ nh.hash) ∧
    (current_head = nh.hash →
      verify_cycle st nh (VerifyResult.ValidChain current_head) bn =
        CycleOut.ok { st with is_starting_up := false, is_first_sync := st.is_starting_up }
          [Event.validateChain nh.hash, Event.updateForkChoice nh.hash,
           Event.outboundNewBlockHashes st.is_first_sync]) := by
  constructor
  · constructor
    · rintro ⟨msg, evs, hfatal⟩ hch
      simp [verify_cycle, hnz, hch] at hfatal
    · intro hch
      exact ⟨"Invalid verify_chain result", [Event.validateChain nh.hash],
        by simp [verify_cycle, hnz, hch]⟩
  · intro hch
    simp [verify_cycle, hnz, hch, send_new_block_hash_announcements]

/-- C4: in a verify cycle with an `InvalidChain` verdict on a nonzero
height, the driver resolves `get_block_num(latest_valid_head)` and raises a
fatal error exactly when the answer is `none`; otherwise it unwinds,
submits the bad-header set exactly when that set is non-empty, calls
`update_fork_choice(latest_valid_head)`, and emits no
`OutboundNewBlockHashes` announcement in that cycle. -/
theorem C4_invalid_chain (st : LoopState V) (nh : NewHeight) (lvh : Hash)
    (bad : Option Hash) (bads : List Hash) (bn : Option Nat) (hnz : nh.number ≠ 0) :
    ((∃ msg evs, verify_cycle st nh (VerifyResult.InvalidChain lvh bad bads) bn =
        CycleOut.fatal msg evs) ↔ bn = none) ∧
    (∀ n, bn = some n →
      verify_cycle st nh (VerifyResult.InvalidChain lvh bad bads) bn =
        CycleOut.ok { st with is_starting_up := false, is_first_sync := st.is_starting_up }
          ([Event.validateChain nh.hash, Event.getBlockNum lvh, Event.unwindEv n lvh bad] ++
           (if bads.isEmpty then [] else [Event.updateBadHeaders bads]) ++
           [Event.updateForkChoice lvh])) ∧
    (∀ b, Event.outboundNewBlockHashes b ∉
      (verify_cycle st nh (VerifyResult.InvalidChain lvh bad bads) bn).events) := by
  refine ⟨⟨?_, ?_⟩, ?_, ?_⟩
  · rintro ⟨msg, evs, hfatal⟩
    cases bn with
    | none => rfl
    | some n => simp [verify_cycle, hnz] at hfatal
  · intro hbn
    subst hbn
    exact ⟨"Invalid latest_valid_head",
      [Event.validateChain nh.hash, Event.getBlockNum lvh], by simp [verify_cycle, hnz]⟩
  · intro n hbn
    subst hbn
    simp [verify_cycle, hnz, update_bad_headers]
  · intro b hmem
    cases bn with
    | none => simp [verify_cycle, hnz, CycleOut.events] at hmem
    | some n =>
      by_cases hbe : bads.isEmpty <;>
        simp [verify_cycle, hnz, CycleOut.events, update_bad_headers, hbe] at hmem

/-- C5: `resume` raises the fatal invariant-violation error (with the
fork-choice view already reset to the engine's head) if and only if the
height of the head returned by `last_fork_choice` exceeds the value
returned by `block_progress`. -/
theorem C5_resume_invariant (ops : ForkViewOps V) (v : V) (inp : ResumeInputs) :
    ((∃ msg, (resume ops v inp).2.2 = Except.error msg) ↔
      inp.block_progress < height inp.head) ∧
    (inp.block_progress < height inp.head →
      resume ops v inp =
        (ops.reset_head v inp.head, [],
         Except.error "canonical head beyond block progress")) := by
  by_cases h1 : height inp.head ≤ inp.block_progress
  · constructor
    · constructor
      · rintro ⟨msg, hmsg⟩
        by_cases h2 : inp.block_progress = height inp.head <;>
          simp [resume, h1, h2] at hmsg
      · intro hlt; omega
    · intro hlt; omega
  · refine ⟨⟨fun _ => by omega,
      fun _ => ⟨"canonical head beyond block progress", by simp [resume, h1]⟩⟩,
      fun _ => by simp [resume, h1]⟩

/-- C6: when `block_progress` equals the height of the head returned by
`last_fork_choice`, `resume` returns that head unchanged and does not fetch
the last headers; otherwise it fetches the last 128 headers, adds each of
them to the fork-choice view in arrival order, and returns the view's
resulting head. -/
theorem C6_resume_paths (ops : ForkViewOps V) (v : V) (inp : ResumeInputs)
    (hinv : height inp.head ≤ inp.block_progress) :
    (inp.block_progress = height inp.head →
      resume ops v inp =
        (ops.reset_head v inp.head, [],
         Except.ok { number := inp.head.number, hash := inp.head.hash })) ∧
    (inp.block_progress ≠ height inp.head →
      resume ops v inp =
        ((addAll ops (ops.reset_head v inp.head) inp.prev_headers).1,
         [Event.getLastHeaders 128],
         Except.ok
           { number :=
               ops.head_height (addAll ops (ops.reset_head v inp.head) inp.prev_headers).1,
             hash :=
               ops.head_hash (addAll ops (ops.reset_head v inp.head) inp.prev_headers).1 })) := by
  constructor
  · intro h2
    simp [resume, hinv, h2]
  · intro h2
    simp [resume, hinv, h2, addAll_fst]

/-- C7: for every popped batch, the blocks are processed in queue order —
each block's `td` is set to the value the fork-choice view's `add` returned
for its header and the local block progress is raised to the maximum of its
previous value and the block number — then `insert_blocks` is called for
the whole annotated batch, and the `OutboundNewBlock` announcement, built
from exactly the blocks flagged `to_announce`, follows the insertion. -/
theorem C7_batch_processing (ops : ForkViewOps V) (fs : Bool) (v : V) (p : Nat)
    (bs : List Block) :
    ∃ done : List Block,
      processBatch ops fs v p bs =
        ((addAll ops v (bs.map Block.header)).1,
         bs.foldl (fun m b => Nat.max m b.header.number) p,
         done,
         Event.insertBlocks done ::
           (if (done.filter (fun b => b.to_announce)).isEmpty then []
            else [Event.outboundNewBlock (done.filter (fun b => b.to_announce)) fs])) ∧
      done.map Block.td = (addAll ops v (bs.map Block.header)).2 ∧
      done.map (fun b => (b.header, b.to_announce)) =
        bs.map (fun b => (b.header, b.to_announce)) := by
  refine ⟨annotate ops v bs, ?_, annotate_td ops bs v, annotate_shape ops bs v⟩
  rw [processBatch_eq]
  rfl

/-- C8: whenever the height delivered by the source phase (resume or a
forward pass) is 0, the iteration skips verification entirely — it makes no
`validate_chain` call — clears `is_starting_up` and proceeds, so the next
iteration goes directly to a forward pass. -/
theorem C8_zero_height_skips_verify (ops : ForkViewOps V) (st : LoopState V)
    (inp : CycleInputs) (v' : V) (evs : List Event) (nh : NewHeight)
    (hsrc : sourcePhase ops st inp = some (v', evs, Except.ok nh))
    (h0 : nh.number = 0) :
    execIteration ops st inp =
      CycleOut.ok { is_starting_up := false, is_first_sync := st.is_first_sync, view := v' }
        evs ∧
    ∀ h, Event.validateChain h ∉ evs := by
  constructor
  · unfold execIteration
    rw [hsrc]
    simp [verify_cycle, h0, CycleOut.prepend]
  · intro h hmem
    rcases sourcePhase_events ops st inp v' evs _ hsrc _ hmem with he | he
    · simp at he
    · exact he

/-- C9: every completed forward pass ends with a block progress no smaller
than the initial one read from the engine, and returns the `NewHeight`
built from the fork-choice view's head height and head hash, the
`stop_downloading` request being the pass's final action. -/
theorem C9_forward_progress (ops : ForkViewOps V) (fs : Bool) (v : V) (p : Nat)
    (sched : List LoopObs) (v' : V) (p' : Nat) (nh : NewHeight) (evs : List Event)
    (h : forward_and_insert_blocks ops fs v p sched = some (v', p', nh, evs)) :
    p ≤ p' ∧ nh = { number := ops.head_height v', hash := ops.head_hash v' } ∧
    evs.getLast? = some Event.stopDownloading := by
  unfold forward_and_insert_blocks at h
  cases hl : forwardLoop ops fs sched v p [Event.downloadBlocks p] with
  | none => rw [hl] at h; cases h
  | some q =>
    rw [hl] at h
    obtain ⟨w, prog, es⟩ := q
    cases h
    refine ⟨forwardLoop_progress ops fs sched v p _ _ hl, rfl, ?_⟩
    simp

/-- C10: a batch in which no block is flagged `to_announce` produces no
`OutboundNewBlock` message at all, and `send_new_block_announcements` on an
empty block list submits nothing to the exchange. -/
theorem C10_empty_announcements (ops : ForkViewOps V) (fs : Bool) (v : V) (p : Nat)
    (bs : List Block) (hnone : ∀ b ∈ bs, b.to_announce = false) :
    send_new_block_announcements fs [] = [] ∧
    ∀ e ∈ (processBatch ops fs v p bs).2.2.2,
      ∀ blocks b, e ≠ Event.outboundNewBlock blocks b := by
  refine ⟨rfl, ?_⟩
  intro e he blocks b
  rw [processBatch_eq] at he
  have hfil : (annotate ops v bs).filter (fun x => x.to_announce) = [] := by
    rw [List.filter_eq_nil_iff]
    intro a ha
    simp [annotate_announce_false ops bs v hnone a ha]
  rw [hfil] at he
  simp [send_new_block_announcements] at he
  subst he
  intro hc
  cases hc

/-! ### Counterexamples -/

/-- C1 (counterexample): running the driver loop on the concrete inputs —
a clean resume to head (5, hash 100) verified `ValidChain`, then an
already-in-sync forward pass with a second `ValidChain` verify cycle — the
`OutboundNewBlockHashes` announcement of the second verify cycle, emitted
after the first complete verify cycle has finished (the trace's first five
events), still carries `is_first_sync = true`, and no announcement of the
whole run carries `false`.  This refutes the claim that the flag is false
for every announcement emitted after the first complete verify cycle. -/
theorem C1_counterexample :
    execution_loop simpleOps [exInp1, exInp2] exView0 =
      RunOut.ran
        { is_starting_up := false, is_first_sync := false,
          view := { number := 5, hash := 100, td := 1 } }
        [Event.getLastHeaders 65536, Event.initialStateEv,
         Event.validateChain 100, Event.updateForkChoice 100,
         Event.outboundNewBlockHashes true,
         Event.downloadBlocks 5, Event.stopDownloading,
         Event.validateChain 100, Event.updateForkChoice 100,
         Event.outboundNewBlockHashes true] ∧
    Event.outboundNewBlockHashes true ∈
      ((execution_loop simpleOps [exInp1, exInp2] exView0).events).drop 5 ∧
    Event.outboundNewBlockHashes false ∉
      (execution_loop simpleOps [exInp1, exInp2] exView0).events :=
  ⟨rfl, by decide, by decide⟩

/-- C2 (counterexample): with the stop flag raised at the very first
loop-head check of the forward phase, the driver requests
`stop_downloading` but then still calls `validate_chain` on the head the
pass returned — the iteration's trace contains `validateChain` after
`stopDownloading` — refuting the claim that the driver exits without
calling `validate_chain` for that iteration. -/
theorem C2_counterexample :
    exInpStop.fwdSched.head?.map LoopObs.stopping = some true ∧
    execIteration simpleOps exSt2 exInpStop =
      CycleOut.ok
        { is_starting_up := false, is_first_sync := false,
          view := { number := 5, hash := 100, td := 1 } }
        [Event.downloadBlocks 5, Event.stopDownloading,
         Event.validateChain 100, Event.updateForkChoice 100,
         Event.outboundNewBlockHashes true] ∧
    Event.validateChain 100 ∈ (execIteration simpleOps exSt2 exInpStop).events :=
  ⟨rfl, rfl, by decide⟩

/-! ### Witnesses -/

theorem C1_amended_first_sync_flag_witness :
    execIteration simpleOps exSt2 exInp2 =
      CycleOut.ok
        { is_starting_up := false, is_first_sync := false,
          view := { number := 5, hash := 100, td := 1 } }
        [Event.downloadBlocks 5, Event.stopDownloading, Event.validateChain 100,
         Event.updateForkChoice 100, Event.outboundNewBlockHashes true] ∧
    ((∀ b, Event.outboundNewBlockHashes b ∈
        ([Event.downloadBlocks 5, Event.stopDownloading, Event.validateChain 100,
          Event.updateForkChoice 100, Event.outboundNewBlockHashes true] : List Event) →
        b = exSt2.is_first_sync) ∧
     (∀ bs b, Event.outboundNewBlock bs b ∈
        ([Event.downloadBlocks 5, Event.stopDownloading, Event.validateChain 100,
          Event.updateForkChoice 100, Event.outboundNewBlockHashes true] : List Event) →
        b = exSt2.is_first_sync) ∧
     ((∃ x, Event.validateChain x ∈
        ([Event.downloadBlocks 5, Event.stopDownloading, Event.validateChain 100,
          Event.updateForkChoice 100, Event.outboundNewBlockHashes true] : List Event)) →
        ({ is_starting_up := false, is_first_sync := false,
           view := { number := 5, hash := 100, td := 1 } } :
            LoopState SimpleView).is_first_sync = exSt2.is_starting_up)) :=
  ⟨rfl, C1_amended_first_sync_flag simpleOps exSt2 _ exInp2 _ rfl⟩

theorem C2_amended_stop_still_verifies_witness :
    exSt2.is_starting_up = false ∧ exInpStop.fwdSched = exStObs :: [] ∧
    exStObs.stopping = true ∧
    (forward_and_insert_blocks simpleOps exSt2.is_first_sync exSt2.view
        exInpStop.fwdProgress exInpStop.fwdSched =
      some (exSt2.view, exInpStop.fwdProgress,
            { number := simpleOps.head_height exSt2.view,
              hash := simpleOps.head_hash exSt2.view },
            [Event.downloadBlocks exInpStop.fwdProgress, Event.stopDownloading]) ∧
     (simpleOps.head_height exSt2.view ≠ 0 →
       Event.validateChain (simpleOps.head_hash exSt2.view) ∈
         (execIteration simpleOps exSt2 exInpStop).events)) :=
  ⟨rfl, rfl, rfl,
   C2_amended_stop_still_verifies simpleOps exSt2 exInpStop exStObs [] rfl rfl rfl⟩

theorem C3_valid_chain_witness :
    exNH.number ≠ 0 ∧
    (((∃ msg evs, verify_cycle exSt2 exNH (VerifyResult.ValidChain 100) none =
        CycleOut.fatal msg evs) ↔ (100 : Hash) ≠ exNH.hash) ∧
     ((100 : Hash) = exNH.hash →
       verify_cycle exSt2 exNH (VerifyResult.ValidChain 100) none =
         CycleOut.ok
           { exSt2 with is_starting_up := false, is_first_sync := exSt2.is_starting_up }
           [Event.validateChain exNH.hash, Event.updateForkChoice exNH.hash,
            Event.outboundNewBlockHashes exSt2.is_first_sync])) :=
  ⟨by decide, C3_valid_chain exSt2 exNH 100 none (by decide)⟩

theorem C4_invalid_chain_witness :
    exNH.number ≠ 0 ∧
    (((∃ msg evs,
        verify_cycle exSt2 exNH (VerifyResult.InvalidChain 104 (some 105) [105, 106])
          (some 4) = CycleOut.fatal msg evs) ↔ (some 4 : Option Nat) = none) ∧
     (∀ n, (some 4 : Option Nat) = some n →
       verify_cycle exSt2 exNH (VerifyResult.InvalidChain 104 (some 105) [105, 106])
          (some 4) =
         CycleOut.ok
           { exSt2 with is_starting_up := false, is_first_sync := exSt2.is_starting_up }
           ([Event.validateChain exNH.hash, Event.getBlockNum 104,
             Event.unwindEv n 104 (some 105)] ++
            (if ([105, 106] : List Hash).isEmpty then []
             else [Event.updateBadHeaders [105, 106]]) ++
            [Event.updateForkChoice 104])) ∧
     (∀ b, Event.outboundNewBlockHashes b ∉
       (verify_cycle exSt2 exNH (VerifyResult.InvalidChain 104 (some 105) [105, 106])
          (some 4)).events)) :=
  ⟨by decide, C4_invalid_chain exSt2 exNH 104 (some 105) [105, 106] (some 4) (by decide)⟩

theorem C5_resume_invariant_witness :
    ((∃ msg, (resume simpleOps exView0 exResumeInp).2.2 = Except.error msg) ↔
      exResumeInp.block_progress < height exResumeInp.head) ∧
    (exResumeInp.block_progress < height exResumeInp.head →
      resume simpleOps exView0 exResumeInp =
        (simpleOps.reset_head exView0 exResumeInp.head, [],
         Except.error "canonical head beyond block progress")) :=
  C5_resume_invariant simpleOps exView0 exResumeInp

theorem C6_resume_paths_witness :
    height exResumeInp.head ≤ exResumeInp.block_progress ∧
    ((exResumeInp.block_progress = height exResumeInp.head →
      resume simpleOps exView0 exResumeInp =
        (simpleOps.reset_head exView0 exResumeInp.head, [],
         Except.ok { number := exResumeInp.head.number, hash := exResumeInp.head.hash })) ∧
     (exResumeInp.block_progress ≠ height exResumeInp.head →
      resume simpleOps exView0 exResumeInp =
        ((addAll simpleOps (simpleOps.reset_head exView0 exResumeInp.head)
            exResumeInp.prev_headers).1,
         [Event.getLastHeaders 128],
         Except.ok
           { number := simpleOps.head_height
               (addAll simpleOps (simpleOps.reset_head exView0 exResumeInp.head)
                 exResumeInp.prev_headers).1,
             hash := simpleOps.head_hash
               (addAll simpleOps (simpleOps.reset_head exView0 exResumeInp.head)
                 exResumeInp.prev_headers).1 }))) :=
  ⟨by decide, C6_resume_paths simpleOps exView0 exResumeInp (by decide)⟩

theorem C8_zero_height_skips_verify_witness :
    sourcePhase simpleOps exSt0 exInp0 =
      some ({ number := 0, hash := 7, td := 0 }, [],
            Except.ok ({ number := 0, hash := 7 } : NewHeight)) ∧
    ({ number := 0, hash := 7 } : NewHeight).number = 0 ∧
    (execIteration simpleOps exSt0 exInp0 =
      CycleOut.ok
        { is_starting_up := false, is_first_sync := exSt0.is_first_sync,
          view := { number := 0, hash := 7, td := 0 } } [] ∧
     ∀ h, Event.validateChain h ∉ ([] : List Event)) :=
  ⟨rfl, rfl, C8_zero_height_skips_verify simpleOps exSt0 exInp0 _ _ _ rfl rfl⟩

theorem C9_forward_progress_witness :
    forward_and_insert_blocks simpleOps true
        ({ number := 5, hash := 100, td := 1 } : SimpleView) 5 [exObs] =
      some ({ number := 5, hash := 100, td := 1 }, 5,
            ({ number := 5, hash := 100 } : NewHeight),
            [Event.downloadBlocks 5, Event.stopDownloading]) ∧
    ((5 : Nat) ≤ 5 ∧
     ({ number := 5, hash := 100 } : NewHeight) =
       { number := simpleOps.head_height { number := 5, hash := 100, td := 1 },
         hash := simpleOps.head_hash { number := 5, hash := 100, td := 1 } } ∧
     ([Event.downloadBlocks 5, Event.stopDownloading] : List Event).getLast? =
       some Event.stopDownloading) :=
  ⟨rfl, C9_forward_progress simpleOps true _ 5 [exObs] _ _ _ _ rfl⟩

theorem C10_empty_announcements_witness :
    (∀ b ∈ [exBlockQuiet], b.to_announce = false) ∧
    (send_new_block_announcements true [] = [] ∧
     ∀ e ∈ (processBatch simpleOps true
         ({ number := 5, hash := 100, td := 1 } : SimpleView) 5 [exBlockQuiet]).2.2.2,
       ∀ blocks b, e ≠ Event.outboundNewBlock blocks b) :=
  ⟨by decide,
   C10_empty_announcements simpleOps true _ 5 [exBlockQuiet] (by decide)⟩

end PoWSync
